import Mathlib

/-!
Verification development for the FIO benchmark suite's log-to-record
normalization pipeline (`src/result_parser.py`, `src/config.py`).

Text is modelled as `List Char`; Python floats are modelled as `ℚ`
(all arithmetic performed by the parser — sums, averages, fixed-base
scaling — is exact); Python exceptions are modelled with `Except`.
The regular-expression patterns of the source are embedded as
character-level matching functions that reproduce the leftmost /
greedy-with-backtracking semantics of `re` on the pattern fragments
actually used.  The ASCII fragments of the `re` character classes
(`\d`, `\w`, `\s`, `[a-zA-Z0-9]`, `[\w.@-]`) are used; the logs these
patterns are aimed at are ASCII.
-/

namespace Fio

/-! ### Character classes -/

def isDigitC (c : Char) : Bool := c.isDigit

def isAlnumC (c : Char) : Bool := c.isAlpha || c.isDigit

def isWordC (c : Char) : Bool := isAlnumC c || c = '_'

def isSpaceC (c : Char) : Bool :=
  c = ' ' || c = '\t' || c = '\n' || c = '\r' || c = Char.ofNat 11 || c = Char.ofNat 12

def isJobHdrC (c : Char) : Bool := isWordC c || c = '.' || c = '@' || c = '-'

def isDigDot (c : Char) : Bool := isDigitC c || c = '.'

def lowerC (c : Char) : Char := c.toLower

def lowerL (l : List Char) : List Char := l.map lowerC

/-! ### Generic scanning helpers -/

/-- Maximal run of characters satisfying `p` (regex `X+`/`X*` greedy run),
together with the remainder. -/
def runOf (p : Char → Bool) (l : List Char) : List Char × List Char :=
  (l.takeWhile p, l.dropWhile p)

/-- Consume a case-sensitive literal. -/
def dropLit (lit l : List Char) : Option (List Char) :=
  if lit.isPrefixOf l then some (l.drop lit.length) else none

/-- Consume a literal case-insensitively (`lit` is given in lowercase). -/
def dropLitCI : List Char → List Char → Option (List Char)
  | [], l => some l
  | _ :: _, [] => none
  | c :: cs, d :: ds => if lowerC d = c then dropLitCI cs ds else none

/-- First alternative of `alts` that literally matches (case-insensitively)
a prefix of `l`; returns the matched source text and the remainder.
Models an alternation of literals whose members share no first character
that could lead to several alternatives matching the same text. -/
def matchAlt (alts : List (List Char)) (l : List Char) : Option (List Char × List Char) :=
  match alts with
  | [] => none
  | a :: rest =>
    match dropLitCI a l with
    | some r => some (l.take a.length, r)
    | none => matchAlt rest l

/-- Substring containment (Python's `in` on strings). -/
def containsSub (needle : List Char) : List Char → Bool
  | [] => needle.isEmpty
  | l@(_ :: rest) => needle.isPrefixOf l || containsSub needle rest

/-- Python `str.strip()` (whitespace from both ends). -/
def pyStrip (l : List Char) : List Char :=
  ((l.dropWhile isSpaceC).reverse.dropWhile isSpaceC).reverse

/-! ### Numeric text -/

/-- Value of a digit string read in base 10. -/
def natOfDigits (l : List Char) : Nat :=
  l.foldl (fun a c => a * 10 + (c.toNat - 48)) 0

/-- A natural number as a rational (spelled via `mkRat` so that concrete
values reduce inside the kernel). -/
def qOfNat (n : Nat) : ℚ := mkRat (Int.ofNat n) 1

/-- Model of Python `float()` restricted to the numeric texts this parser's
regexes can produce (captures of `[\d.]+`): strings over digits and `'.'`,
valid iff they contain at least one digit and at most one dot.
(`float` also accepts signs, exponents and surrounding whitespace; no such
text reaches the `float` calls of the source, whose arguments are `[\d.]+`
captures or the stripped/suffix-stripped IOPS token.)  `none` models the
`ValueError` raise. -/
def pyFloat? (l : List Char) : Option ℚ :=
  if l.all isDigDot ∧ l.any isDigitC ∧ l.count '.' ≤ 1 then
    let intPart := l.takeWhile isDigitC
    let fracPart := (l.dropWhile isDigitC).drop 1
    some (qOfNat (natOfDigits intPart) + qOfNat (natOfDigits fracPart) / qOfNat (10 ^ fracPart.length))
  else none

/-- Model of Python `int()` on a string: valid only for (here unsigned)
digit strings, which are the only numeric strings the pipeline stores in
rows.  `none` models the `ValueError` raise. -/
def pyInt? (l : List Char) : Option Nat :=
  if l ≠ [] ∧ l.all isDigitC then some (natOfDigits l) else none

/-! ### Unit normalizer (`parse_iops_value`, `parse_bw_to_bps`, `lat_to_us`) -/

/-- `parse_iops_value`: convert an IOPS string like `125k` or `1.5M` to a
number; a trailing `k`/`K` scales by 1000, `m`/`M` by 1000000; a failing
`float()` is caught and yields 0. -/
def parse_iops_value (raw : List Char) : ℚ :=
  let r := pyStrip raw
  let sfx := r.getLast?
  let mult : ℚ :=
    if sfx = some 'k' ∨ sfx = some 'K' then 1000
    else if sfx = some 'm' ∨ sfx = some 'M' then 1000000
    else 1
  let r := if mult = 1 then r else r.dropLast
  match pyFloat? r with
  | some q => q * mult
  | none => 0

/-- `parse_bw_to_bps`: convert a bandwidth value to Bytes/s, selecting the
multiplier by substring containment on the lowercased unit, in the source's
test order; an unrecognized unit passes the value through. -/
def parse_bw_to_bps (value : ℚ) (unit : List Char) : ℚ :=
  let u := lowerL unit
  if containsSub ("gib/s".toList) u then value * 1024 * 1024 * 1024
  else if containsSub ("gb/s".toList) u then value * 1000 * 1000 * 1000
  else if containsSub ("mib/s".toList) u then value * 1024 * 1024
  else if containsSub ("mb/s".toList) u then value * 1000 * 1000
  else if containsSub ("kib/s".toList) u then value * 1024
  else if containsSub ("kb/s".toList) u then value * 1000
  else if containsSub ("b/s".toList) u then value
  else value

/-- `lat_to_us`: convert a latency value to microseconds based on the unit
token captured from the log. -/
def lat_to_us (value : ℚ) (unit : List Char) : ℚ :=
  let u := lowerL unit
  if ("msec".toList).isPrefixOf u ∨ ("ms".toList).isPrefixOf u then value * 1000
  else if ("sec".toList).isPrefixOf u ∨ u = "s".toList then value * 1000000
  else if ("nsec".toList).isPrefixOf u ∨ ("ns".toList).isPrefixOf u then value / 1000
  else value

/-- `_block_size_to_bytes`: `re.match(r"(\d+)\s*(k|m|g)?", bs.lower().strip())`;
no leading digit means no match and 0; otherwise the leading digit run scaled
by the optional suffix that follows optional whitespace. -/
def block_size_to_bytes (bs : List Char) : Nat :=
  let b := lowerL (pyStrip bs)
  let ds := b.takeWhile isDigitC
  if ds.isEmpty then 0
  else
    let value := natOfDigits ds
    let rest := (b.dropWhile isDigitC).dropWhile isSpaceC
    match rest.head? with
    | some 'k' => value * 1024
    | some 'm' => value * 1024 * 1024
    | some 'g' => value * 1024 * 1024 * 1024
    | _ => value

/-! ### Metadata extractor -/

structure Metadata where
  disk : List Char
  test_type : List Char
  block_size : List Char
  numjobs : List Char
  iodepth : List Char
  mode : List Char
deriving DecidableEq

/-- Captures of `RE_FILENAME` (group 1 is the optional disk token). -/
structure FilenameGroups where
  disk : Option (List Char)
  test_type : List Char
  block_size : List Char
  numjobs : List Char
  iodepth : List Char
deriving DecidableEq

/-- The five test-type alternatives of `RE_FILENAME`, in pattern order.
No member is a prefix of another, so at most one can match given text. -/
def testTypes : List (List Char) :=
  ["seqread".toList, "seqwrite".toList, "randread".toList, "randwrite".toList, "randrw".toList]

/-- `os.path.basename`: the part after the last `/`. -/
def basenameOf (path : List Char) : List Char :=
  ((path.reverse.takeWhile (· ≠ '/')).reverse)

/-- Match `(\d+k?)` directly followed by `_` and return (capture, rest after
the underscore).  The optional `k` (case-insensitive) is taken only when the
underscore follows it — dropping it instead would put the underscore test on
the `k` itself, which fails, so the regex backtracking collapses to this
deterministic rule. -/
def matchBsUnd (l : List Char) : Option (List Char × List Char) :=
  let (ds, r) := runOf isDigitC l
  if ds.isEmpty then none
  else
    match r with
    | [] => none
    | c :: r1 =>
      if lowerC c = 'k' then
        match r1 with
        | '_' :: r2 => some (ds ++ [c], r2)
        | _ => none
      else if c = '_' then some (ds, r1)
      else none

/-- Match `(\d+)` (nonempty, maximal — the following pattern characters are
never digits, so greediness is deterministic). -/
def matchDigits (l : List Char) : Option (List Char × List Char) :=
  let (ds, r) := runOf isDigitC l
  if ds.isEmpty then none else some (ds, r)

/-- Match the tail `(seqread|…|randrw)_(\d+k?)_nj(\d+)_io(\d+)_\d+\.log$` of
`RE_FILENAME`, requiring the whole remaining text to be consumed (the
pattern is `$`-anchored). -/
def matchTail (l : List Char) : Option (List Char × List Char × List Char × List Char) :=
  match matchAlt testTypes l with
  | none => none
  | some (tt, r1) =>
    match r1 with
    | '_' :: r2 =>
      match matchBsUnd r2 with
      | none => none
      | some (bs, r3) =>
        match dropLitCI ("nj".toList) r3 with
        | none => none
        | some r4 =>
          match matchDigits r4 with
          | none => none
          | some (nj, r5) =>
            match r5 with
            | '_' :: r6 =>
              match dropLitCI ("io".toList) r6 with
              | none => none
              | some r7 =>
                match matchDigits r7 with
                | none => none
                | some (io, r8) =>
                  match r8 with
                  | '_' :: r9 =>
                    match matchDigits r9 with
                    | none => none
                    | some (_, r10) =>
                      match dropLitCI (".log".toList) r10 with
                      | some [] => some (tt, bs, nj, io)
                      | _ => none
                  | _ => none
            | _ => none
    | _ => none

/-- Match the optional `(?:([a-zA-Z0-9]+)_)?` disk group followed by the
tail.  The disk candidate is the maximal alphanumeric run followed by `_`
(shorter runs end on an alphanumeric character, never on the `_` the
pattern requires, so no further backtracking arises); the group-absent
branch is tried when the group-present branch fails, as the regex does. -/
def matchDiskTail (l : List Char) : Option FilenameGroups :=
  let withDisk : Option FilenameGroups :=
    let (dk, r) := runOf isAlnumC l
    if dk.isEmpty then none
    else
      match r with
      | '_' :: r1 =>
        match matchTail r1 with
        | some (tt, bs, nj, io) => some ⟨some dk, tt, bs, nj, io⟩
        | none => none
      | _ => none
  match withDisk with
  | some g => some g
  | none =>
    match matchTail l with
    | some (tt, bs, nj, io) => some ⟨none, tt, bs, nj, io⟩
    | none => none

/-- Model of `RE_FILENAME.match(basename)` (the pattern is anchored at both
ends, `re.IGNORECASE`).  The optional `(?:parallel_|stress_)?` prefix is
committed when it literally (case-insensitively) heads the name: if the
remainder then fails, retrying without the prefix could only succeed by
taking the prefix word as the disk group, which needs the very same
remainder match that just failed — so no retry is needed. -/
def matchFilename (basename : List Char) : Option FilenameGroups :=
  match dropLitCI ("parallel_".toList) basename with
  | some rest => matchDiskTail rest
  | none =>
    match dropLitCI ("stress_".toList) basename with
    | some rest => matchDiskTail rest
    | none => matchDiskTail basename

/-- `extract_metadata_from_filename`: `basename` the path, match
`RE_FILENAME`, and build the metadata dict; the `parallel_`/`stress_`
checks of the source are the case-sensitive `str.startswith`. -/
def extract_metadata_from_filename (filename : List Char) : Option Metadata :=
  let basename := basenameOf filename
  match matchFilename basename with
  | none => none
  | some g =>
    if ("parallel_".toList).isPrefixOf basename then
      some ⟨"multi".toList, g.test_type, g.block_size, g.numjobs, g.iodepth, "parallel".toList⟩
    else if ("stress_".toList).isPrefixOf basename then
      some ⟨"multi".toList, g.test_type, g.block_size, g.numjobs, g.iodepth, "stress".toList⟩
    else
      some ⟨g.disk.getD ("unknown".toList), g.test_type, g.block_size, g.numjobs, g.iodepth,
        "sequential".toList⟩

/-! ### The description tag (`RE_DESCRIPTION`) -/

/-- Captures of `RE_DESCRIPTION` in group order:
`description=(\w+)_([a-zA-Z0-9]+)_(\d+k?)_nj(\d+)_io(\d+)`. -/
structure DescGroups where
  g1 : List Char
  g2 : List Char
  g3 : List Char
  g4 : List Char
  g5 : List Char
deriving DecidableEq

/-- Match `(\d+k?)_nj(\d+)_io(\d+)` (the unanchored tail of
`RE_DESCRIPTION`; the final digit run is maximal by greediness). -/
def matchDescTail (l : List Char) : Option (List Char × List Char × List Char) :=
  match matchBsUnd l with
  | none => none
  | some (bs, r) =>
    match dropLitCI ("nj".toList) r with
    | none => none
    | some r2 =>
      match matchDigits r2 with
      | none => none
      | some (nj, r3) =>
        match r3 with
        | '_' :: r4 =>
          match dropLitCI ("io".toList) r4 with
          | none => none
          | some r5 =>
            match matchDigits r5 with
            | none => none
            | some (io, _) => some (bs, nj, io)
        | _ => none

/-- Try the cut points for the `(\w+)_` group of `RE_DESCRIPTION`.
`w` is the maximal `\w` run after `description=`; since `_` is itself a
`\w` character the group is truly backtracking: the regex hands characters
back until the next character is `_`, i.e. it tries every index `i` of `w`
holding `_` (with a nonempty group before it), largest first.  For each cut,
the `([a-zA-Z0-9]+)_` group is the maximal alphanumeric run followed by
`_` (deterministic), then the tail. -/
def descCutsGo (w rest : List Char) : List Nat → Option DescGroups
  | [] => none
  | i :: is =>
    let g1 := w.take i
    let after := w.drop (i + 1) ++ rest
    let (g2, r2) := runOf isAlnumC after
    let attempt : Option DescGroups :=
      if g2.isEmpty then none
      else
        match r2 with
        | '_' :: r3 =>
          match matchDescTail r3 with
          | some (bs, nj, io) => some ⟨g1, g2, bs, nj, io⟩
          | none => none
        | _ => none
    match attempt with
    | some g => some g
    | none => descCutsGo w rest is

/-- Match `RE_DESCRIPTION` at the start of `l`. -/
def matchDescAt (l : List Char) : Option DescGroups :=
  match dropLitCI ("description=".toList) l with
  | none => none
  | some r =>
    let (w, rest) := runOf isWordC r
    let cuts := (((List.range w.length).filter fun i => decide (1 ≤ i) && (w.getD i ' ' == '_'))).reverse
    descCutsGo w rest cuts

/-- `RE_DESCRIPTION.search`: leftmost match over the whole content. -/
def searchDesc : List Char → Option DescGroups
  | [] => none
  | l@(_ :: rest) =>
    match matchDescAt l with
    | some g => some g
    | none => searchDesc rest

/-! ### Job splitting (`re.split` on the job-header pattern) -/

/-- Match `\n[\w.@-]+: \(groupid=\d+, jobs=\d+\):` at the head of `l`
(the split pattern carries no flags, so literals are case-sensitive);
returns the remainder after the match.  Every quantified piece is followed
by a character outside its class, so greediness is deterministic. -/
def matchJobHdrAt (l : List Char) : Option (List Char) :=
  match l with
  | '\n' :: r =>
    let (run, r1) := runOf isJobHdrC r
    if run.isEmpty then none
    else
      match dropLit (": (groupid=".toList) r1 with
      | none => none
      | some r2 =>
        match matchDigits r2 with
        | none => none
        | some (_, r3) =>
          match dropLit (", jobs=".toList) r3 with
          | none => none
          | some r4 =>
            match matchDigits r4 with
            | none => none
            | some (_, r5) =>
              match dropLit ("):".toList) r5 with
              | none => none
              | some r6 => some r6
  | _ => none

/-- Scanning worker for `re.split`: cut at each leftmost non-overlapping
job-header match.  The fuel (initially `length + 1`) only certifies
termination: a match always consumes at least one character, so the fuel
never runs out on the initial call. -/
def jobSplitGo : Nat → List Char → List Char → List (List Char)
  | 0, acc, _ => [acc.reverse]
  | fuel + 1, acc, l =>
    match matchJobHdrAt l with
    | some rest => acc.reverse :: jobSplitGo fuel [] rest
    | none =>
      match l with
      | [] => [acc.reverse]
      | c :: r => jobSplitGo fuel (c :: acc) r

/-- `re.split(r'\n[\w.@-]+: \(groupid=\d+, jobs=\d+\):', content)`. -/
def jobSplit (content : List Char) : List (List Char) :=
  jobSplitGo (content.length + 1) [] content

/-! ### Direction blocks within a job section -/

/-- Match `^\s+(read|write)\s*:` at a line-start position: a nonempty
whitespace run (which, as `\s`, may span newlines), a direction word
(case-insensitive), optional whitespace, and a colon.  Returns the
lowercased direction (the source applies `.lower()` to the group) and
the consumed length. -/
def matchDirAt (l : List Char) : Option (List Char × Nat) :=
  let (ws, r) := runOf isSpaceC l
  if ws.isEmpty then none
  else
    match matchAlt ["read".toList, "write".toList] r with
    | none => none
    | some (d, r2) =>
      let (ws2, r3) := runOf isSpaceC r2
      match r3 with
      | ':' :: _ => some (lowerL d, ws.length + d.length + ws2.length + 1)
      | _ => none

/-- `re.finditer` of the direction pattern over a section: leftmost
non-overlapping matches, each anchored (`^`, `re.M`) at the section start
or just after a newline; returns (direction, match start).  Scanning
resumes after each match, whose final character is always `:`, so the
position right after a match is never a line start.  Fuel as in
`jobSplitGo`. -/
def dirMatchesGo : Nat → List Char → Nat → Bool → List (List Char × Nat)
  | 0, _, _, _ => []
  | fuel + 1, l, pos, atStart =>
    if atStart then
      match matchDirAt l with
      | some (d, len) => (d, pos) :: dirMatchesGo fuel (l.drop len) (pos + len) false
      | none =>
        match l with
        | [] => []
        | c :: r => dirMatchesGo fuel r (pos + 1) (c = '\n')
    else
      match l with
      | [] => []
      | c :: r => dirMatchesGo fuel r (pos + 1) (c = '\n')

/-- The chunk of each direction match: from its start to the next match's
start (or the section end), as in the source's slicing. -/
def chunksOf (s : List Char) : List (List Char × Nat) → List (List Char × List Char)
  | [] => []
  | (d, st) :: rest =>
    let en := match rest with
      | (_, st2) :: _ => st2
      | [] => s.length
    (d, (s.drop st).take (en - st)) :: chunksOf s rest

/-- All (direction, chunk) pairs of one job section. -/
def directionChunks (s : List Char) : List (List Char × List Char) :=
  chunksOf s (dirMatchesGo (s.length + 1) s 0 true)

/-! ### `RE_IOPS_BW` -/

/-- Match `([\d.]+[kKmM]?),`: the digit-dot run is maximal; an immediately
following multiplier letter is taken only when the comma follows it
(otherwise the comma test fails on the letter itself, and shorter digit-dot
runs end on digit-dot characters, so no backtracking survives). -/
def matchIopsGroup (l : List Char) : Option (List Char × List Char) :=
  let (run, r) := runOf isDigDot l
  if run.isEmpty then none
  else
    match r with
    | [] => none
    | c :: r1 =>
      if c = 'k' ∨ c = 'K' ∨ c = 'm' ∨ c = 'M' then
        match r1 with
        | ',' :: r2 => some (run ++ [c], r2)
        | _ => none
      else if c = ',' then some (run, r1)
      else none

/-- One backtracking attempt for `([\d.]+)(\w+/s)`: with the value group
fixed, the unit's `\w+` is the maximal word run and must be followed by
`/s` (case-insensitive `s`). -/
def numUnitTry (g3 : List Char) (after : List Char) :
    Option (List Char × List Char × List Char) :=
  let (w4, r4) := runOf isWordC after
  if w4.isEmpty then none
  else
    match r4 with
    | '/' :: c :: rest =>
      if lowerC c = 's' then some (g3, w4 ++ ['/', c], rest) else none
    | _ => none

/-- Backtracking loop for `([\d.]+)(\w+/s)`: the value group starts as the
maximal digit-dot run and hands characters back one at a time (largest
value group first), as the regex engine does. -/
def numUnitBackJ (run r : List Char) : Nat → Option (List Char × List Char × List Char)
  | 0 => none
  | j + 1 =>
    match numUnitTry (run.take (j + 1)) (run.drop (j + 1) ++ r) with
    | some res => some res
    | none => numUnitBackJ run r j

/-- Match `([\d.]+)(\w+/s)`. -/
def matchNumUnit (l : List Char) : Option (List Char × List Char × List Char) :=
  let (run, r) := runOf isDigDot l
  if run.isEmpty then none else numUnitBackJ run r run.length

/-- Match `RE_IOPS_BW` at the head of `l`
(`(read|write)\s*:\s*IOPS=([\d.]+[kKmM]?),\s*BW=([\d.]+)(\w+/s)`,
`re.IGNORECASE`); returns the captures (direction, IOPS text, bandwidth
value text, bandwidth unit text). -/
def matchIopsBwAt (l : List Char) :
    Option (List Char × List Char × List Char × List Char) :=
  match matchAlt ["read".toList, "write".toList] l with
  | none => none
  | some (d, r1) =>
    let (_, r2) := runOf isSpaceC r1
    match r2 with
    | ':' :: r3 =>
      let (_, r4) := runOf isSpaceC r3
      match dropLitCI ("iops=".toList) r4 with
      | none => none
      | some r5 =>
        match matchIopsGroup r5 with
        | none => none
        | some (g2, r6) =>
          let (_, r7) := runOf isSpaceC r6
          match dropLitCI ("bw=".toList) r7 with
          | none => none
          | some r8 =>
            match matchNumUnit r8 with
            | none => none
            | some (g3, g4, _) => some (d, g2, g3, g4)
    | _ => none

/-- `RE_IOPS_BW.search`: leftmost match over a chunk. -/
def searchIopsBw : List Char → Option (List Char × List Char × List Char × List Char)
  | [] => none
  | l@(_ :: rest) =>
    match matchIopsBwAt l with
    | some g => some g
    | none => searchIopsBw rest

/-! ### `RE_LAT_AVG` -/

/-- After an `avg=` occurrence: `\s*([\d.]+)` — optional whitespace (which
may span newlines), then a nonempty digit-dot run, maximal by greediness. -/
def latAvgTry (after : List Char) : Option (List Char) :=
  let (_, r) := runOf isSpaceC after
  let (run, _) := runOf isDigDot r
  if run.isEmpty then none else some run

/-- One cut attempt for `.*avg=\s*([\d.]+)`: `.*` consumes `k` characters
of the line, then `avg=` (case-insensitively) and the value group must
follow. -/
def latTryCut (line lineRest : List Char) (k : Nat) : Option (List Char) :=
  match dropLitCI ("avg=".toList) (line.drop k ++ lineRest) with
  | some after => latAvgTry after
  | none => none

/-- Backtracking for `.*avg=\s*([\d.]+)`: `.*` stays within the current
line and is greedy, so the engine tries the `avg=` occurrences from the
rightmost cut position down to 0.  `line` is the rest of the current line
after `min=`; `lineRest` is everything from its terminating newline on. -/
def latScan (line lineRest : List Char) : Nat → Option (List Char)
  | 0 => latTryCut line lineRest 0
  | k + 1 =>
    match latTryCut line lineRest (k + 1) with
    | some g => some g
    | none => latScan line lineRest k

/-- Match `RE_LAT_AVG` at a line-start position
(`^\s+lat\s*\((\w+)\)\s*:\s*min=.*avg=\s*([\d.]+)`, `re.M | re.I`);
returns (unit capture, average capture). -/
def matchLatAt (l : List Char) : Option (List Char × List Char) :=
  let (ws, r) := runOf isSpaceC l
  if ws.isEmpty then none
  else
    match dropLitCI ("lat".toList) r with
    | none => none
    | some r1 =>
      let (_, r2) := runOf isSpaceC r1
      match r2 with
      | '(' :: r3 =>
        let (u, r4) := runOf isWordC r3
        if u.isEmpty then none
        else
          match r4 with
          | ')' :: r5 =>
            let (_, r6) := runOf isSpaceC r5
            match r6 with
            | ':' :: r7 =>
              let (_, r8) := runOf isSpaceC r7
              match dropLitCI ("min=".toList) r8 with
              | none => none
              | some r9 =>
                let line := r9.takeWhile (· ≠ '\n')
                let lineRest := r9.dropWhile (· ≠ '\n')
                match latScan line lineRest line.length with
                | some g2 => some (u, g2)
                | none => none
            | _ => none
          | _ => none
      | _ => none

/-- `RE_LAT_AVG.search` over a chunk: leftmost match whose start is the
chunk start or follows a newline (`^` under `re.M`). -/
def searchLatGo : List Char → Bool → Option (List Char × List Char)
  | [], _ => none
  | l@(c :: rest), atStart =>
    match if atStart then matchLatAt l else none with
    | some g => some g
    | none => searchLatGo rest (c = '\n')

def searchLat (chunk : List Char) : Option (List Char × List Char) :=
  searchLatGo chunk true

/-! ### Metric aggregation (`raw_metrics` and the result rows) -/

/-- The `raw_metrics` accumulator: per-direction lists of IOPS, bandwidth
(Bytes/s) and latency (usec) values, one entry per contributing chunk. -/
structure RawMetrics where
  read_iops : List ℚ
  read_bw : List ℚ
  read_lat : List ℚ
  write_iops : List ℚ
  write_bw : List ℚ
  write_lat : List ℚ
deriving DecidableEq

def emptyRaw : RawMetrics := ⟨[], [], [], [], [], []⟩

/-- Whether processing a chunk would raise: the two bare `float()` calls of
the loop body (`float(bw_match.group(3))` and `float(lat_match.group(2))`)
are uncaught, and a `[\d.]+` capture may be dot-only or multi-dotted. -/
def chunkBad (chunk : List Char) : Bool :=
  (match searchIopsBw chunk with
   | some (_, _, g3, _) => (pyFloat? g3).isNone
   | none => false) ||
  (match searchLat chunk with
   | some (_, g2) => (pyFloat? g2).isNone
   | none => false)

def contentBad (content : List Char) : Bool :=
  (jobSplit content).any fun s => (directionChunks s).any fun dc => chunkBad dc.2

/-- The loop body for one (direction, chunk) pair: append parsed IOPS and
bandwidth when `RE_IOPS_BW` matches, and the converted latency when
`RE_LAT_AVG` matches, to the lists of the chunk's direction.  (Written with
total `getD 0`; an unparsable capture raises in the source, which
`parseContent` models by checking `contentBad` first — an erroring run
yields no value, so the order of the check is immaterial.) -/
def addChunk (rm : RawMetrics) (d chunk : List Char) : RawMetrics :=
  let rm1 :=
    match searchIopsBw chunk with
    | some (_, g2, g3, g4) =>
      let iops := parse_iops_value g2
      let bw := parse_bw_to_bps ((pyFloat? g3).getD 0) g4
      if d = "read".toList then
        { rm with read_iops := rm.read_iops ++ [iops], read_bw := rm.read_bw ++ [bw] }
      else
        { rm with write_iops := rm.write_iops ++ [iops], write_bw := rm.write_bw ++ [bw] }
    | none => rm
  match searchLat chunk with
  | some (g1, g2) =>
    let lat := lat_to_us ((pyFloat? g2).getD 0) g1
    if d = "read".toList then { rm1 with read_lat := rm1.read_lat ++ [lat] }
    else { rm1 with write_lat := rm1.write_lat ++ [lat] }
  | none => rm1

def collectChunks (rm : RawMetrics) : List (List Char × List Char) → RawMetrics
  | [] => rm
  | (d, c) :: rest => collectChunks (addChunk rm d c) rest

def collectSections (rm : RawMetrics) : List (List Char) → RawMetrics
  | [] => rm
  | s :: rest => collectSections (collectChunks rm (directionChunks s)) rest

/-- The full metric-collection pass of `parse_fio_log` over the content. -/
def collectContent (content : List Char) : RawMetrics :=
  collectSections emptyRaw (jobSplit content)

/-- One emitted record, with exactly the fields the source's row dicts
carry (base row plus the per-direction update). -/
structure ResultRow where
  timestamp : List Char
  disk : List Char
  test_type : List Char
  block_size : List Char
  numjobs : List Char
  iodepth : List Char
  mode : List Char
  direction : List Char
  iops_k : ℚ
  bw_mps : ℚ
  lat_avg_us : ℚ
deriving DecidableEq

/-- `sum(lst) / len(lst) if lst else 0`. -/
def get_avg (l : List ℚ) : ℚ :=
  if l = [] then 0 else l.sum / qOfNat l.length

/-- The row-building tail of `parse_fio_log` (lines 207-272): totals per
direction, then the per-test-type policy (`randrw` merges into one `mixed`
row; otherwise one row per direction with a truthy metric). -/
def buildRows (meta : Metadata) (ts : List Char) (rm : RawMetrics) : List ResultRow :=
  let test_type := lowerL meta.test_type
  let read_iops := rm.read_iops.sum
  let write_iops := rm.write_iops.sum
  let read_bw := rm.read_bw.sum
  let write_bw := rm.write_bw.sum
  let read_lat := get_avg rm.read_lat
  let write_lat := get_avg rm.write_lat
  let base : ResultRow :=
    ⟨ts, meta.disk, test_type, meta.block_size, meta.numjobs, meta.iodepth, meta.mode,
      [], 0, 0, 0⟩
  if test_type = "randrw".toList then
    let combined_lat :=
      if read_lat ≠ 0 ∧ write_lat ≠ 0 then (read_lat + write_lat) / 2
      else if read_lat ≠ 0 then read_lat
      else write_lat
    let row : ResultRow :=
      { base with
        direction := "mixed".toList
        iops_k := (read_iops + write_iops) / 1000
        bw_mps := (read_bw + write_bw) / 1000000
        lat_avg_us := combined_lat }
    [row]
  else
    let readRow : ResultRow :=
      { base with
        direction := "read".toList
        iops_k := read_iops / 1000
        bw_mps := read_bw / 1000000
        lat_avg_us := read_lat }
    let writeRow : ResultRow :=
      { base with
        direction := "write".toList
        iops_k := write_iops / 1000
        bw_mps := write_bw / 1000000
        lat_avg_us := write_lat }
    (if read_iops ≠ 0 ∨ read_bw ≠ 0 ∨ read_lat ≠ 0 then [readRow] else []) ++
    (if write_iops ≠ 0 ∨ write_bw ≠ 0 ∨ write_lat ≠ 0 then [writeRow] else [])

/-! ### The per-file pipeline -/

/-- The metadata fallback chain of `parse_fio_log` (lines 140-161):
filename pattern, then the body's description tag, then the hard-coded
defaults. -/
def parseMetadata (filepath content : List Char) : Metadata :=
  match extract_metadata_from_filename filepath with
  | some m => m
  | none =>
    match searchDesc content with
    | some g => ⟨g.g2, g.g1, g.g3, g.g4, g.g5, "unknown".toList⟩
    | none =>
      ⟨"multi".toList, "unknown".toList, "unknown".toList, "0".toList, "0".toList,
        "unknown".toList⟩

/-- Python exceptions that can escape the pipeline. -/
inductive PyErr where
  | valueError
  | oserror
deriving DecidableEq

/-- `parse_fio_log` from the point where the file's text is in hand:
metadata resolution, metric collection, row building.  The timestamp (the
file's mtime, or now on failure — I/O that cannot raise out of the
function) is a parameter. -/
def parseContent (filepath content ts : List Char) : Except PyErr (List ResultRow) :=
  let meta := parseMetadata filepath content
  if contentBad content then .error .valueError
  else .ok (buildRows meta ts (collectContent content))

/-- What the filesystem holds at a path: nothing, an unreadable entry
(`open` raises `PermissionError`/`OSError`), or a file's bytes. -/
inductive FileEntry where
  | absent
  | denied
  | file (bytes : List Nat)

/-- Worker for `decodeReplace`, with fuel for termination (every step
consumes at least one byte, so fuel `length` never runs out). -/
def decodeGo : Nat → List Nat → List Char
  | _, [] => []
  | 0, _ => []
  | fuel + 1, b0 :: rest =>
    let decodeReplace := decodeGo fuel
    let b := b0 % 256
    let cont : Nat → Bool := fun c => 0x80 ≤ c % 256 && c % 256 ≤ 0xBF
    if b < 0x80 then Char.ofNat b :: decodeReplace rest
    else if 0xC2 ≤ b ∧ b ≤ 0xDF then
      match rest with
      | c1 :: rest1 =>
        if cont c1 then
          Char.ofNat ((b - 0xC0) * 64 + (c1 % 256 - 0x80)) :: decodeReplace rest1
        else Char.ofNat 0xFFFD :: decodeReplace rest
      | [] => [Char.ofNat 0xFFFD]
    else if 0xE0 ≤ b ∧ b ≤ 0xEF then
      let lo1 : Nat := if b = 0xE0 then 0xA0 else 0x80
      let hi1 : Nat := if b = 0xED then 0x9F else 0xBF
      match rest with
      | c1 :: rest1 =>
        if lo1 ≤ c1 % 256 ∧ c1 % 256 ≤ hi1 then
          match rest1 with
          | c2 :: rest2 =>
            if cont c2 then
              Char.ofNat ((b - 0xE0) * 4096 + (c1 % 256 - 0x80) * 64 + (c2 % 256 - 0x80)) ::
                decodeReplace rest2
            else Char.ofNat 0xFFFD :: decodeReplace rest1
          | [] => [Char.ofNat 0xFFFD]
        else Char.ofNat 0xFFFD :: decodeReplace rest
      | [] => [Char.ofNat 0xFFFD]
    else if 0xF0 ≤ b ∧ b ≤ 0xF4 then
      let lo1 : Nat := if b = 0xF0 then 0x90 else 0x80
      let hi1 : Nat := if b = 0xF4 then 0x8F else 0xBF
      match rest with
      | c1 :: rest1 =>
        if lo1 ≤ c1 % 256 ∧ c1 % 256 ≤ hi1 then
          match rest1 with
          | c2 :: rest2 =>
            if cont c2 then
              match rest2 with
              | c3 :: rest3 =>
                if cont c3 then
                  Char.ofNat ((b - 0xF0) * 262144 + (c1 % 256 - 0x80) * 4096 +
                      (c2 % 256 - 0x80) * 64 + (c3 % 256 - 0x80)) :: decodeReplace rest3
                else Char.ofNat 0xFFFD :: decodeReplace rest2
              | [] => [Char.ofNat 0xFFFD]
            else Char.ofNat 0xFFFD :: decodeReplace rest1
          | [] => [Char.ofNat 0xFFFD]
        else Char.ofNat 0xFFFD :: decodeReplace rest
      | [] => [Char.ofNat 0xFFFD]
    else Char.ofNat 0xFFFD :: decodeReplace rest

/-- UTF-8 decoding with `errors="replace"`: malformed input never raises;
each maximal invalid subpart becomes one U+FFFD.  Continuation-byte ranges
follow the standard table (overlongs and surrogates rejected). -/
def decodeReplace (bs : List Nat) : List Char :=
  decodeGo bs.length bs

/-- `parse_fio_log` including its file access: a path that is not a regular
file returns `[]`; a file the process cannot open raises out of the
function; otherwise the bytes are decoded with replacement and parsed. -/
def parse_fio_log (fs : List Char → FileEntry) (filepath ts : List Char) :
    Except PyErr (List ResultRow) :=
  match fs filepath with
  | .absent => .ok []
  | .denied => .error .oserror
  | .file bytes => parseContent filepath (decodeReplace bytes) ts

/-- `"precond" in os.path.basename(log_file)`. -/
def isPrecond (path : List Char) : Bool :=
  containsSub ("precond".toList) (basenameOf path)

/-- The batch loop of `parse_directory` over the discovered files
(discovery and ordering are out of scope; the list is a parameter):
precondition logs are skipped, the remaining results are concatenated, and
an exception escaping `parse_fio_log` propagates (the loop has no handler). -/
def parse_directory (fs : List Char → FileEntry) (logFiles : List (List Char))
    (ts : List Char) : Except PyErr (List ResultRow) :=
  match logFiles with
  | [] => .ok []
  | p :: rest =>
    if isPrecond p then parse_directory fs rest ts
    else
      match parse_fio_log fs p ts with
      | .error e => .error e
      | .ok rs =>
        match parse_directory fs rest ts with
        | .error e => .error e
        | .ok more => .ok (rs ++ more)

/-! ### Sorter (`sort_results`) -/

/-- `_TEST_TYPE_ORDER.get(test_type, 99)`. -/
def TEST_TYPE_ORDER (t : List Char) : Nat :=
  if t = "seqread".toList then 0
  else if t = "seqwrite".toList then 1
  else if t = "randread".toList then 2
  else if t = "randwrite".toList then 3
  else if t = "randrw".toList then 4
  else 99

/-- `sort_key`: `(type_order, bs_bytes, numjobs, iodepth)`.  The source's
`int()` calls raise on non-digit strings; pipeline rows only ever carry
digit strings there (regex captures or the `"0"` default), and the
theorems about sorting assume exactly that, so the total `getD 0` reading
agrees with the source on every input it is applied to. -/
def sortKey (r : ResultRow) : Nat × Nat × Nat × Nat :=
  (TEST_TYPE_ORDER (lowerL r.test_type), block_size_to_bytes r.block_size,
    (pyInt? r.numjobs).getD 0, (pyInt? r.iodepth).getD 0)

/-- Lexicographic comparison of sort keys (Python tuple `<=`). -/
def keyLE (a b : Nat × Nat × Nat × Nat) : Bool :=
  decide (a.1 < b.1 ∨ (a.1 = b.1 ∧ (a.2.1 < b.2.1 ∨ (a.2.1 = b.2.1 ∧
    (a.2.2.1 < b.2.2.1 ∨ (a.2.2.1 = b.2.2.1 ∧ a.2.2.2 ≤ b.2.2.2))))))

def rowLE (r s : ResultRow) : Bool := keyLE (sortKey r) (sortKey s)

/-- `sort_results`: Python's `sorted` is a stable merge sort keyed by
`sort_key`, i.e. `mergeSort` under the key's lexicographic order. -/
def sort_results (results : List ResultRow) : List ResultRow :=
  results.mergeSort rowLE

/-! ### Record emitter (`write_csv` and `RESULT_CSV_COLUMNS`) -/

/-- A Python dict value as it appears in a result row. -/
inductive PValue where
  | str (s : List Char)
  | num (q : ℚ)
deriving DecidableEq

/-- A result row as the dict the source actually builds: `base_row`'s seven
keys in insertion order, then the four keys `row.update` adds. -/
def ResultRow.toDict (r : ResultRow) : List (List Char × PValue) :=
  [("timestamp".toList, .str r.timestamp), ("disk".toList, .str r.disk),
   ("test_type".toList, .str r.test_type), ("block_size".toList, .str r.block_size),
   ("numjobs".toList, .str r.numjobs), ("iodepth".toList, .str r.iodepth),
   ("mode".toList, .str r.mode), ("direction".toList, .str r.direction),
   ("iops_k".toList, .num r.iops_k), ("bw_mps".toList, .num r.bw_mps),
   ("lat_avg_us".toList, .num r.lat_avg_us)]

/-- `RESULT_CSV_COLUMNS` from `config.py`. -/
def RESULT_CSV_COLUMNS : List (List Char) :=
  ["timestamp".toList, "disk".toList, "test_type".toList, "block_size".toList,
   "numjobs".toList, "iodepth".toList, "mode".toList, "direction".toList,
   "iops_k".toList, "bw_mps".toList, "lat_avg_us".toList]

def lookupDict (k : List Char) (d : List (List Char × PValue)) : Option PValue :=
  (d.find? fun kv => kv.1 == k).map (·.2)

/-- `write_csv` as data: the header row `DictWriter` writes from its
`fieldnames`, and per sorted row the cell looked up for each field name
(`None` would mean a missing key, which `DictWriter` fills with its
restval). -/
def write_csv (results : List ResultRow) :
    List (List Char) × List (List (Option PValue)) :=
  let sortedResults := sort_results results
  (RESULT_CSV_COLUMNS,
    sortedResults.map fun r => RESULT_CSV_COLUMNS.map fun c => lookupDict c r.toDict)

/-- The column list the specification text names for the output table
(stated from the spec's words, for comparison against the source's
`RESULT_CSV_COLUMNS` only). -/
def specResultColumns : List (List Char) :=
  ["timestamp".toList, "disk".toList, "test_type".toList, "block_size".toList,
   "numjobs".toList, "iodepth".toList, "mode".toList, "direction".toList,
   "iops".toList, "bandwidth".toList, "latency_mean_us".toList,
   "latency_p50_us".toList, "latency_p95_us".toList, "latency_p99_us".toList,
   "latency_p999_us".toList]

/-! ### Per-chunk extraction views (used to characterize the aggregation) -/

/-- The (IOPS, bandwidth-in-Bytes/s) contribution of one chunk, when
`RE_IOPS_BW` matches in it — exactly what `addChunk` appends. -/
def chunkIops (chunk : List Char) : Option (ℚ × ℚ) :=
  match searchIopsBw chunk with
  | some (_, g2, g3, g4) =>
    some (parse_iops_value g2, parse_bw_to_bps ((pyFloat? g3).getD 0) g4)
  | none => none

/-- The latency contribution (µs) of one chunk, when `RE_LAT_AVG` matches. -/
def chunkLat (chunk : List Char) : Option ℚ :=
  match searchLat chunk with
  | some (g1, g2) => some (lat_to_us ((pyFloat? g2).getD 0) g1)
  | none => none

/-- IOPS entries a single job section contributes to direction `dir`. -/
def dirIopsList (dir s : List Char) : List ℚ :=
  (directionChunks s).filterMap fun dc =>
    if dc.1 = dir then (chunkIops dc.2).map Prod.fst else none

/-- Bandwidth entries a single job section contributes to direction `dir`. -/
def dirBwList (dir s : List Char) : List ℚ :=
  (directionChunks s).filterMap fun dc =>
    if dc.1 = dir then (chunkIops dc.2).map Prod.snd else none

/-- Latency entries a single job section contributes to direction `dir`. -/
def dirLatList (dir s : List Char) : List ℚ :=
  (directionChunks s).filterMap fun dc =>
    if dc.1 = dir then chunkLat dc.2 else none

/-! ### Concrete data used by witnesses and counterexamples -/

/-- A representative emitted row. -/
def sampleRow : ResultRow :=
  ⟨"t".toList, "sda".toList, "randread".toList, "4k".toList, "64".toList, "128".toList,
    "sequential".toList, "read".toList, 125, 525336576 / 1000000, 51234 / 100⟩

/-- A second row with the same sort key as `sampleRow` (ties in all four
key components) but different content. -/
def sampleRowB : ResultRow :=
  ⟨"t".toList, "sdb".toList, "randread".toList, "4k".toList, "64".toList, "128".toList,
    "sequential".toList, "write".toList, 30, 1, 5⟩

/-- Metadata of a `randrw` file. -/
def metaRW : Metadata :=
  ⟨"sda".toList, "randrw".toList, "4k".toList, "4".toList, "8".toList, "sequential".toList⟩

/-- Raw metrics with read IOPS 1000 / write IOPS 2000 and read latency
100µs / write latency 300µs (the spec's own example). -/
def rawRW : RawMetrics :=
  ⟨[1000], [], [100], [2000], [], [300]⟩

/-- A small filesystem: `a.log` exists but cannot be opened, `b.log` holds
a one-line readable log. -/
def fsDemo : List Char → FileEntry := fun p =>
  if p = "a.log".toList then .denied
  else if p = "b.log".toList then .file ((" read: IOPS=1k, BW=1KiB/s\n".toList).map Char.toNat)
  else .absent

/-- The single row `b.log` of `fsDemo` parses to. -/
def rowB : ResultRow :=
  ⟨"t".toList, "multi".toList, "unknown".toList, "unknown".toList, "0".toList, "0".toList,
    "unknown".toList, "read".toList, 1, 1024 / 1000000, 0⟩

/-- The single zero row an empty `randrw` file parses to. -/
def rowRWEmpty : ResultRow :=
  ⟨"t".toList, "sda".toList, "randrw".toList, "4k".toList, "1".toList, "1".toList,
    "sequential".toList, "mixed".toList, 0, 0, 0⟩

/-! ## Lemmas -/

lemma lowerC_of_digit {c : Char} (h : isDigitC c = true) : lowerC c = c := by
  simp [isDigitC, Char.isDigit] at h
  obtain ⟨h1, h2⟩ := h
  have h2' : c.toNat ≤ 57 := by
    have := UInt32.toNat_le_of_le (n := c.val) (m := 57) (by norm_num) h2
    simpa [Char.toNat] using this
  simp [lowerC, Char.toLower]
  intro h65 _
  omega

lemma not_space_of_digdot {c : Char} (h : isDigDot c = true) : isSpaceC c = false := by
  by_contra hs
  simp only [Bool.not_eq_false] at hs
  simp only [isSpaceC, Bool.or_eq_true, decide_eq_true_eq] at hs
  rcases hs with ((((rfl | rfl) | rfl) | rfl) | rfl) | rfl <;> exact absurd h (by decide)

lemma dropWhile_eq_self_of_false {p : Char → Bool} {l : List Char}
    (h : ∀ c ∈ l, p c = false) : l.dropWhile p = l := by
  cases l with
  | nil => rfl
  | cons a t => simp [List.dropWhile, h a (by simp)]

lemma pyStrip_eq_self {l : List Char} (h : ∀ c ∈ l, isSpaceC c = false) : pyStrip l = l := by
  unfold pyStrip
  rw [dropWhile_eq_self_of_false h,
    dropWhile_eq_self_of_false (fun c hc => h c (List.mem_reverse.mp hc)),
    List.reverse_reverse]

lemma pyFloat?_all {l : List Char} {q : ℚ} (h : pyFloat? l = some q) :
    l.all isDigDot = true := by
  unfold pyFloat? at h
  split at h
  · next hc => exact hc.1
  · exact absurd h (by simp)

lemma pyFloat?_ne_nil {l : List Char} {q : ℚ} (h : pyFloat? l = some q) : l ≠ [] := by
  unfold pyFloat? at h
  split at h
  · next hc =>
    intro hnil
    subst hnil
    simpa using hc.2.1
  · exact absurd h (by simp)

lemma takeWhile_append_all {p : Char → Bool} {l r : List Char}
    (h : ∀ c ∈ l, p c = true) : (l ++ r).takeWhile p = l ++ r.takeWhile p := by
  induction l with
  | nil => simp
  | cons a t ih =>
    simp only [List.cons_append, List.takeWhile]
    rw [h a (by simp)]
    simp [ih fun c hc => h c (by simp [hc])]

lemma dropWhile_append_all {p : Char → Bool} {l r : List Char}
    (h : ∀ c ∈ l, p c = true) : (l ++ r).dropWhile p = r.dropWhile p := by
  induction l with
  | nil => simp
  | cons a t ih =>
    simp only [List.cons_append, List.dropWhile]
    rw [h a (by simp)]
    exact ih fun c hc => h c (by simp [hc])

lemma lowerL_of_digits {l : List Char} (h : ∀ c ∈ l, isDigitC c = true) :
    lowerL l = l := by
  unfold lowerL
  induction l with
  | nil => rfl
  | cons a t ih =>
    simp only [List.map_cons]
    rw [lowerC_of_digit (h a (by simp)), ih fun c hc => h c (by simp [hc])]

lemma keyLE_trans {a b c : Nat × Nat × Nat × Nat}
    (hab : keyLE a b = true) (hbc : keyLE b c = true) : keyLE a c = true := by
  simp only [keyLE, decide_eq_true_eq] at *
  omega

lemma keyLE_total (a b : Nat × Nat × Nat × Nat) : keyLE a b || keyLE b a := by
  simp only [keyLE, Bool.or_eq_true, decide_eq_true_eq]
  omega

lemma keyLE_refl (a : Nat × Nat × Nat × Nat) : keyLE a a = true := by
  simp [keyLE]

lemma rowLE_trans : ∀ a b c : ResultRow, rowLE a b → rowLE b c → rowLE a c :=
  fun _ _ _ hab hbc => keyLE_trans hab hbc

lemma rowLE_total : ∀ a b : ResultRow, rowLE a b || rowLE b a :=
  fun a b => keyLE_total (sortKey a) (sortKey b)

lemma parseContent_ok {fp c ts : List Char} {rows : List ResultRow}
    (h : parseContent fp c ts = .ok rows) :
    rows = buildRows (parseMetadata fp c) ts (collectContent c) := by
  unfold parseContent at h
  split at h
  · exact absurd h (by simp)
  · exact (Except.ok.inj h).symm

lemma get_avg_zero {l : List ℚ} (h : ∀ x ∈ l, x = 0) : get_avg l = 0 := by
  unfold get_avg
  split
  · rfl
  · rw [List.sum_eq_zero h]
    simp

/-- The one `mixed` row `buildRows` produces for `randrw` metadata. -/
lemma buildRows_randrw_eq (meta : Metadata) (ts : List Char) (rm : RawMetrics)
    (h : lowerL meta.test_type = "randrw".toList) :
    buildRows meta ts rm =
      [⟨ts, meta.disk, lowerL meta.test_type, meta.block_size, meta.numjobs, meta.iodepth,
        meta.mode, "mixed".toList,
        (rm.read_iops.sum + rm.write_iops.sum) / 1000,
        (rm.read_bw.sum + rm.write_bw.sum) / 1000000,
        if get_avg rm.read_lat ≠ 0 ∧ get_avg rm.write_lat ≠ 0 then
          (get_avg rm.read_lat + get_avg rm.write_lat) / 2
        else if get_avg rm.read_lat ≠ 0 then get_avg rm.read_lat
        else get_avg rm.write_lat⟩] := by
  unfold buildRows
  rw [if_pos h]

/-- `buildRows` for non-`randrw` metadata: the two conditional
per-direction rows. -/
lemma buildRows_other_eq (meta : Metadata) (ts : List Char) (rm : RawMetrics)
    (h : lowerL meta.test_type ≠ "randrw".toList) :
    buildRows meta ts rm =
      (if rm.read_iops.sum ≠ 0 ∨ rm.read_bw.sum ≠ 0 ∨ get_avg rm.read_lat ≠ 0 then
        [⟨ts, meta.disk, lowerL meta.test_type, meta.block_size, meta.numjobs, meta.iodepth,
          meta.mode, "read".toList, rm.read_iops.sum / 1000, rm.read_bw.sum / 1000000,
          get_avg rm.read_lat⟩]
      else []) ++
      (if rm.write_iops.sum ≠ 0 ∨ rm.write_bw.sum ≠ 0 ∨ get_avg rm.write_lat ≠ 0 then
        [⟨ts, meta.disk, lowerL meta.test_type, meta.block_size, meta.numjobs, meta.iodepth,
          meta.mode, "write".toList, rm.write_iops.sum / 1000, rm.write_bw.sum / 1000000,
          get_avg rm.write_lat⟩]
      else []) := by
  unfold buildRows
  rw [if_neg h]

lemma buildRows_length_le (meta : Metadata) (ts : List Char) (rm : RawMetrics) :
    (buildRows meta ts rm).length ≤ 2 := by
  by_cases h : lowerL meta.test_type = "randrw".toList
  · rw [buildRows_randrw_eq meta ts rm h]
    simp
  · rw [buildRows_other_eq meta ts rm h]
    split <;> split <;> simp

lemma dropLitCI_lower : ∀ {lit l r : List Char}, dropLitCI lit l = some r →
    lowerL (l.take lit.length) = lit := by
  intro lit
  induction lit with
  | nil =>
    intro l r _
    simp [lowerL]
  | cons c cs ih =>
    intro l r h
    cases l with
    | nil => simp [dropLitCI] at h
    | cons d ds =>
      simp only [dropLitCI] at h
      split at h
      · next heq =>
        simp only [List.length_cons, List.take_succ_cons, lowerL, List.map_cons]
        rw [heq]
        exact congrArg (c :: ·) (ih h)
      · exact absurd h (by simp)

lemma matchAlt_mem : ∀ {alts : List (List Char)} {l t r : List Char},
    matchAlt alts l = some (t, r) → ∃ a ∈ alts, t = l.take a.length ∧ dropLitCI a l = some r := by
  intro alts
  induction alts with
  | nil => intro l t r h; simp [matchAlt] at h
  | cons a rest ih =>
    intro l t r h
    simp only [matchAlt] at h
    cases hd : dropLitCI a l with
    | some r' =>
      rw [hd] at h
      simp only [Option.some.injEq, Prod.mk.injEq] at h
      obtain ⟨rfl, rfl⟩ := h
      exact ⟨a, by simp, rfl, hd⟩
    | none =>
      rw [hd] at h
      obtain ⟨a', ha', ht, hr⟩ := ih h
      exact ⟨a', by simp [ha'], ht, hr⟩

lemma matchDirAt_direction {l d : List Char} {len : Nat}
    (h : matchDirAt l = some (d, len)) :
    d = "read".toList ∨ d = "write".toList := by
  simp only [matchDirAt, runOf] at h
  split at h
  · exact absurd h (by simp)
  · cases hma : matchAlt ["read".toList, "write".toList] (l.dropWhile isSpaceC) with
    | none => rw [hma] at h; exact absurd h (by simp)
    | some tr =>
      obtain ⟨t, r2⟩ := tr
      rw [hma] at h
      split at h
      · next heq => exact absurd heq (by simp)
      · next dd rr heq =>
        obtain ⟨a, ha, ht, hdrop⟩ := matchAlt_mem hma
        injection heq with heq2
        injection heq2 with he1 he2
        subst he1
        subst he2
        split at h
        · simp only [Option.some.injEq, Prod.mk.injEq] at h
          obtain ⟨rfl, -⟩ := h
          subst ht
          have hlow := dropLitCI_lower hdrop
          simp only [List.mem_cons, List.not_mem_nil, or_false] at ha
          rcases ha with rfl | rfl
          · exact Or.inl hlow
          · exact Or.inr hlow
        · exact absurd h (by simp)

lemma dirMatchesGo_succ (fuel : Nat) (l : List Char) (pos : Nat) (st : Bool) :
    dirMatchesGo (fuel + 1) l pos st =
      if st then
        match matchDirAt l with
        | some (d, len) => (d, pos) :: dirMatchesGo fuel (l.drop len) (pos + len) false
        | none =>
          match l with
          | [] => []
          | c :: r => dirMatchesGo fuel r (pos + 1) (c = '\n')
      else
        match l with
        | [] => []
        | c :: r => dirMatchesGo fuel r (pos + 1) (c = '\n') := rfl

lemma dirMatchesGo_direction : ∀ (fuel : Nat) (l : List Char) (pos : Nat) (st : Bool)
    {d : List Char} {p : Nat}, (d, p) ∈ dirMatchesGo fuel l pos st →
    d = "read".toList ∨ d = "write".toList := by
  intro fuel
  induction fuel with
  | zero => intro l pos st d p h; simp [dirMatchesGo] at h
  | succ fuel ih =>
    intro l pos st d p h
    rw [dirMatchesGo_succ] at h
    cases st with
    | true =>
      simp only [if_pos] at h
      cases hst : matchDirAt l with
      | some dl =>
        rw [hst] at h
        obtain ⟨dd, ll⟩ := dl
        simp only [List.mem_cons] at h
        rcases h with heq | h
        · simp only [Prod.mk.injEq] at heq
          obtain ⟨rfl, -⟩ := heq
          exact matchDirAt_direction hst
        · exact ih _ _ _ h
      | none =>
        rw [hst] at h
        cases l with
        | nil => simp at h
        | cons c r => exact ih _ _ _ h
    | false =>
      simp only [Bool.false_eq_true, if_false] at h
      cases l with
      | nil => simp at h
      | cons c r => exact ih _ _ _ h

lemma chunksOf_direction {s : List Char} : ∀ {ms : List (List Char × Nat)}
    {dc : List Char × List Char}, dc ∈ chunksOf s ms → ∃ p, (dc.1, p) ∈ ms := by
  intro ms
  induction ms with
  | nil => intro dc h; simp [chunksOf] at h
  | cons m rest ih =>
    intro dc h
    obtain ⟨d, st⟩ := m
    simp only [chunksOf, List.mem_cons] at h
    rcases h with rfl | h
    · exact ⟨st, by simp⟩
    · obtain ⟨p, hp⟩ := ih h
      exact ⟨p, by simp [hp]⟩

/-- Every chunk a section is cut into carries direction `read` or `write`. -/
lemma directionChunks_direction {s : List Char} {dc : List Char × List Char}
    (h : dc ∈ directionChunks s) : dc.1 = "read".toList ∨ dc.1 = "write".toList := by
  obtain ⟨p, hp⟩ := chunksOf_direction h
  exact dirMatchesGo_direction _ _ _ _ hp

lemma addChunk_eq (rm : RawMetrics) (d c : List Char) :
    addChunk rm d c =
      ⟨rm.read_iops ++ (if d = "read".toList then ((chunkIops c).map Prod.fst).toList else []),
       rm.read_bw ++ (if d = "read".toList then ((chunkIops c).map Prod.snd).toList else []),
       rm.read_lat ++ (if d = "read".toList then (chunkLat c).toList else []),
       rm.write_iops ++ (if d = "read".toList then [] else ((chunkIops c).map Prod.fst).toList),
       rm.write_bw ++ (if d = "read".toList then [] else ((chunkIops c).map Prod.snd).toList),
       rm.write_lat ++ (if d = "read".toList then [] else (chunkLat c).toList)⟩ := by
  unfold addChunk chunkIops chunkLat
  cases hsb : searchIopsBw c with
  | none =>
    cases hsl : searchLat c with
    | none => by_cases hd : d = ['r', 'e', 'a', 'd'] <;> simp [hd]
    | some g =>
      obtain ⟨g1, g2⟩ := g
      by_cases hd : d = ['r', 'e', 'a', 'd'] <;> simp [hd]
  | some g =>
    obtain ⟨gd, g2, g3, g4⟩ := g
    cases hsl : searchLat c with
    | none => by_cases hd : d = ['r', 'e', 'a', 'd'] <;> simp [hd]
    | some gl =>
      obtain ⟨g1, gl2⟩ := gl
      by_cases hd : d = ['r', 'e', 'a', 'd'] <;> simp [hd]

lemma collectChunks_eq (dcs : List (List Char × List Char)) : ∀ (rm : RawMetrics),
    collectChunks rm dcs =
      ⟨rm.read_iops ++ dcs.filterMap (fun dc => if dc.1 = "read".toList then (chunkIops dc.2).map Prod.fst else none),
       rm.read_bw ++ dcs.filterMap (fun dc => if dc.1 = "read".toList then (chunkIops dc.2).map Prod.snd else none),
       rm.read_lat ++ dcs.filterMap (fun dc => if dc.1 = "read".toList then chunkLat dc.2 else none),
       rm.write_iops ++ dcs.filterMap (fun dc => if dc.1 = "read".toList then none else (chunkIops dc.2).map Prod.fst),
       rm.write_bw ++ dcs.filterMap (fun dc => if dc.1 = "read".toList then none else (chunkIops dc.2).map Prod.snd),
       rm.write_lat ++ dcs.filterMap (fun dc => if dc.1 = "read".toList then none else chunkLat dc.2)⟩ := by
  induction dcs with
  | nil => intro rm; simp [collectChunks]
  | cons dc rest ih =>
    intro rm
    obtain ⟨d, c⟩ := dc
    rw [show collectChunks rm ((d, c) :: rest) = collectChunks (addChunk rm d c) rest from rfl]
    rw [ih (addChunk rm d c), addChunk_eq]
    by_cases hd : d = ['r', 'e', 'a', 'd'] <;>
      cases hio : chunkIops c <;> cases hlt : chunkLat c <;>
        simp [hd, hio, hlt, List.filterMap_cons, List.append_assoc]

lemma collectSections_eq (ss : List (List Char)) : ∀ (rm : RawMetrics),
    collectSections rm ss =
      ⟨rm.read_iops ++ (ss.map (dirIopsList ("read".toList))).flatten,
       rm.read_bw ++ (ss.map (dirBwList ("read".toList))).flatten,
       rm.read_lat ++ (ss.map (dirLatList ("read".toList))).flatten,
       rm.write_iops ++ (ss.map (fun s => (directionChunks s).filterMap fun dc =>
         if dc.1 = "read".toList then none else (chunkIops dc.2).map Prod.fst)).flatten,
       rm.write_bw ++ (ss.map (fun s => (directionChunks s).filterMap fun dc =>
         if dc.1 = "read".toList then none else (chunkIops dc.2).map Prod.snd)).flatten,
       rm.write_lat ++ (ss.map (fun s => (directionChunks s).filterMap fun dc =>
         if dc.1 = "read".toList then none else chunkLat dc.2)).flatten⟩ := by
  induction ss with
  | nil => intro rm; simp [collectSections]
  | cons s rest ih =>
    intro rm
    rw [show collectSections rm (s :: rest) = collectSections (collectChunks rm (directionChunks s)) rest from rfl]
    rw [ih, collectChunks_eq]
    simp [dirIopsList, dirBwList, dirLatList, List.append_assoc]

lemma write_filterMap_eq (s : List Char) (f : List Char → Option ℚ) :
    ((directionChunks s).filterMap fun dc => if dc.1 = "read".toList then none else f dc.2) =
      (directionChunks s).filterMap fun dc => if dc.1 = "write".toList then f dc.2 else none := by
  apply List.filterMap_congr
  intro dc hdc
  rcases directionChunks_direction hdc with hr | hw
  · simp [hr]
  · simp [hw]

lemma lookup_isSome (r : ResultRow) : ∀ col ∈ RESULT_CSV_COLUMNS, (lookupDict col r.toDict).isSome := by
  intro col hcol
  simp only [RESULT_CSV_COLUMNS, List.mem_cons, List.not_mem_nil, or_false] at hcol
  rcases hcol with rfl|rfl|rfl|rfl|rfl|rfl|rfl|rfl|rfl|rfl|rfl <;> rfl

/-- C1 (amended): the emitted table's header is exactly `RESULT_CSV_COLUMNS`. -/
theorem C1_emitted_columns (results : List ResultRow) :
    (write_csv results).1 = RESULT_CSV_COLUMNS ∧
    (∀ r : ResultRow, r.toDict.map Prod.fst = RESULT_CSV_COLUMNS) ∧
    ∀ cells ∈ (write_csv results).2,
      cells.length = RESULT_CSV_COLUMNS.length ∧ ∀ c ∈ cells, c.isSome := by
  refine ⟨rfl, fun r => rfl, ?_⟩
  intro cells hc
  simp only [write_csv, List.mem_map] at hc
  obtain ⟨r, hr, rfl⟩ := hc
  refine ⟨by simp, ?_⟩
  intro c hcm
  simp only [List.mem_map] at hcm
  obtain ⟨col, hcol, rfl⟩ := hcm
  exact lookup_isSome r col hcol

theorem C1_counterexample : (write_csv [sampleRow]).1 ≠ specResultColumns := by decide

theorem C1_witness :
    (RESULT_CSV_COLUMNS.map fun col => lookupDict col sampleRow.toDict).length =
      RESULT_CSV_COLUMNS.length :=
  ((C1_emitted_columns [sampleRow]).2.2 _ (by simp [write_csv, sort_results])).1

/-- C2 (amended): defaults give disk "multi". -/
theorem C2_defaults (filepath content : List Char)
    (hname : extract_metadata_from_filename filepath = none)
    (hdesc : searchDesc content = none) :
    parseMetadata filepath content =
      ⟨"multi".toList, "unknown".toList, "unknown".toList, "0".toList, "0".toList,
        "unknown".toList⟩ := by
  unfold parseMetadata
  rw [hname, hdesc]

theorem C2_counterexample :
    extract_metadata_from_filename ("x.txt".toList) = none ∧
    searchDesc ([] : List Char) = none ∧
    (parseMetadata ("x.txt".toList) []).disk = "multi".toList ∧
    "multi".toList ≠ "unknown".toList := by
  refine ⟨by decide, rfl, rfl, by decide⟩

theorem C2_witness :
    parseMetadata ("x.txt".toList) [] =
      ⟨"multi".toList, "unknown".toList, "unknown".toList, "0".toList, "0".toList,
        "unknown".toList⟩ :=
  C2_defaults ("x.txt".toList) [] (by decide) rfl

lemma extract_eq (name : List Char) :
    extract_metadata_from_filename name =
      match matchFilename (basenameOf name) with
      | none => none
      | some g =>
        if ("parallel_".toList).isPrefixOf (basenameOf name) then
          some ⟨"multi".toList, g.test_type, g.block_size, g.numjobs, g.iodepth,
            "parallel".toList⟩
        else if ("stress_".toList).isPrefixOf (basenameOf name) then
          some ⟨"multi".toList, g.test_type, g.block_size, g.numjobs, g.iodepth,
            "stress".toList⟩
        else
          some ⟨g.disk.getD ("unknown".toList), g.test_type, g.block_size, g.numjobs,
            g.iodepth, "sequential".toList⟩ := rfl

lemma extract_eq_some (name : List Char) (g : FilenameGroups)
    (h : matchFilename (basenameOf name) = some g) :
    extract_metadata_from_filename name =
      if ("parallel_".toList).isPrefixOf (basenameOf name) then
        some ⟨"multi".toList, g.test_type, g.block_size, g.numjobs, g.iodepth,
          "parallel".toList⟩
      else if ("stress_".toList).isPrefixOf (basenameOf name) then
        some ⟨"multi".toList, g.test_type, g.block_size, g.numjobs, g.iodepth,
          "stress".toList⟩
      else
        some ⟨g.disk.getD ("unknown".toList), g.test_type, g.block_size, g.numjobs,
          g.iodepth, "sequential".toList⟩ := by
  rw [extract_eq, h]

lemma not_both_prefix (bn : List Char)
    (hp : ("parallel_".toList).isPrefixOf bn = true)
    (hs : ("stress_".toList).isPrefixOf bn = true) : False := by
  cases bn with
  | nil => simp [List.isPrefixOf] at hp
  | cons c r =>
    simp [List.isPrefixOf] at hp hs
    exact absurd (hp.1.trans hs.1.symm) (by decide)

/-- C5: filename pattern metadata. -/
theorem C5_filename_metadata :
    (∀ name g, matchFilename (basenameOf name) = some g →
      (("parallel_".toList).isPrefixOf (basenameOf name) = true →
        extract_metadata_from_filename name =
          some ⟨"multi".toList, g.test_type, g.block_size, g.numjobs, g.iodepth,
            "parallel".toList⟩) ∧
      (("stress_".toList).isPrefixOf (basenameOf name) = true →
        extract_metadata_from_filename name =
          some ⟨"multi".toList, g.test_type, g.block_size, g.numjobs, g.iodepth,
            "stress".toList⟩) ∧
      (("parallel_".toList).isPrefixOf (basenameOf name) = false →
        ("stress_".toList).isPrefixOf (basenameOf name) = false →
        extract_metadata_from_filename name =
          some ⟨g.disk.getD ("unknown".toList), g.test_type, g.block_size, g.numjobs,
            g.iodepth, "sequential".toList⟩)) ∧
    extract_metadata_from_filename ("sda_randread_4k_nj64_io128_153022.log".toList) =
      some ⟨"sda".toList, "randread".toList, "4k".toList, "64".toList, "128".toList,
        "sequential".toList⟩ := by
  constructor
  · intro name g h
    refine ⟨fun hp => ?_, fun hs => ?_, fun hp hs => ?_⟩
    · rw [extract_eq_some name g h]
      exact if_pos hp
    · rw [extract_eq_some name g h,
        if_neg (fun hp => not_both_prefix (basenameOf name) hp hs)]
      exact if_pos hs
    · rw [extract_eq_some name g h, if_neg (fun hc => by rw [hc] at hp; cases hp),
        if_neg (fun hc => by rw [hc] at hs; cases hs)]
  · decide

theorem C5_witness :
    extract_metadata_from_filename ("parallel_randread_4k_nj1_io1_7.log".toList) =
      some ⟨"multi".toList, "randread".toList, "4k".toList, "1".toList, "1".toList,
        "parallel".toList⟩ :=
  ((C5_filename_metadata.1 ("parallel_randread_4k_nj1_io1_7.log".toList)
    ⟨none, "randread".toList, "4k".toList, "1".toList, "1".toList⟩ (by decide)).1 (by decide))

lemma parse_iops_eq (raw : List Char) :
    parse_iops_value raw =
      if (pyStrip raw).getLast? = some 'k' ∨ (pyStrip raw).getLast? = some 'K' then
        match pyFloat? ((pyStrip raw).dropLast) with
        | some q => q * 1000
        | none => 0
      else if (pyStrip raw).getLast? = some 'm' ∨ (pyStrip raw).getLast? = some 'M' then
        match pyFloat? ((pyStrip raw).dropLast) with
        | some q => q * 1000000
        | none => 0
      else
        match pyFloat? (pyStrip raw) with
        | some q => q * 1
        | none => 0 := by
  unfold parse_iops_value
  dsimp only
  by_cases h1 : (pyStrip raw).getLast? = some 'k' ∨ (pyStrip raw).getLast? = some 'K'
  · rw [if_pos h1, if_pos h1, if_neg (by norm_num : ¬(1000 : ℚ) = 1)]
  · rw [if_neg h1, if_neg h1]
    by_cases h2 : (pyStrip raw).getLast? = some 'm' ∨ (pyStrip raw).getLast? = some 'M'
    · rw [if_pos h2, if_pos h2, if_neg (by norm_num : ¬(1000000 : ℚ) = 1)]
    · rw [if_neg h2, if_neg h2, if_pos rfl]

lemma digdot_not_space {s : List Char} (hall : s.all isDigDot = true) :
    ∀ c ∈ s, isSpaceC c = false :=
  fun c hc => not_space_of_digdot (List.all_eq_true.mp hall c hc)

lemma pyStrip_concat {s : List Char} (hall : s.all isDigDot = true) {ch : Char}
    (hch : isSpaceC ch = false) : pyStrip (s ++ [ch]) = s ++ [ch] := by
  apply pyStrip_eq_self
  intro c hc
  rcases List.mem_append.mp hc with hc | hc
  · exact digdot_not_space hall c hc
  · rw [List.mem_singleton.mp hc]; exact hch

lemma pyStrip_digdot {s : List Char} (hall : s.all isDigDot = true) : pyStrip s = s :=
  pyStrip_eq_self (digdot_not_space hall)

lemma digdot_getLast_not_suffix {s : List Char} (hall : s.all isDigDot = true) {x : Char}
    (hsfx : x = 'k' ∨ x = 'K' ∨ x = 'm' ∨ x = 'M') : ¬s.getLast? = some x := by
  intro hg
  have := List.all_eq_true.mp hall _ (List.mem_of_getLast?_eq_some hg)
  rcases hsfx with rfl | rfl | rfl | rfl <;> exact absurd this (by decide)

lemma parse_iops_digdot {s : List Char} (hall : s.all isDigDot = true) :
    parse_iops_value s =
      match pyFloat? s with
      | some q => q * 1
      | none => 0 := by
  rw [parse_iops_eq, pyStrip_digdot hall]
  rw [if_neg (by
    rintro (hg | hg)
    · exact digdot_getLast_not_suffix hall (Or.inl rfl) hg
    · exact digdot_getLast_not_suffix hall (Or.inr (Or.inl rfl)) hg)]
  rw [if_neg (by
    rintro (hg | hg)
    · exact digdot_getLast_not_suffix hall (Or.inr (Or.inr (Or.inl rfl))) hg
    · exact digdot_getLast_not_suffix hall (Or.inr (Or.inr (Or.inr rfl))) hg)]

/-- C8: the IOPS normalizer. -/
theorem C8_iops :
    (∀ s : List Char, ∀ q : ℚ, pyFloat? s = some q →
      parse_iops_value (s ++ ['k']) = q * 1000 ∧
      parse_iops_value (s ++ ['K']) = q * 1000 ∧
      parse_iops_value (s ++ ['m']) = q * 1000000 ∧
      parse_iops_value (s ++ ['M']) = q * 1000000 ∧
      parse_iops_value s = q) ∧
    (∀ s : List Char, s.all isDigDot = true → pyFloat? s = none →
      parse_iops_value s = 0) ∧
    parse_iops_value ("125k".toList) = 125000 ∧
    parse_iops_value ("1.5M".toList) = 1500000 ∧
    parse_iops_value ("500".toList) = 500 := by
  refine ⟨?_, ?_, by with_unfolding_all rfl, by with_unfolding_all rfl, by with_unfolding_all rfl⟩
  · intro s q h
    have hall := pyFloat?_all h
    have base : ∀ x : Char, (x = 'k' ∨ x = 'K' ∨ x = 'm' ∨ x = 'M') → isSpaceC x = false := by
      rintro x (rfl | rfl | rfl | rfl) <;> decide
    have strip : ∀ x : Char, (x = 'k' ∨ x = 'K' ∨ x = 'm' ∨ x = 'M') →
        pyStrip (s ++ [x]) = s ++ [x] := fun x hx => pyStrip_concat hall (base x hx)
    refine ⟨?_, ?_, ?_, ?_, ?_⟩
    · rw [parse_iops_eq, strip 'k' (Or.inl rfl), List.getLast?_concat,
        if_pos (Or.inl rfl), List.dropLast_concat, h]
    · rw [parse_iops_eq, strip 'K' (Or.inr (Or.inl rfl)), List.getLast?_concat,
        if_pos (Or.inr rfl), List.dropLast_concat, h]
    · rw [parse_iops_eq, strip 'm' (Or.inr (Or.inr (Or.inl rfl))), List.getLast?_concat,
        if_neg (by simp), if_pos (Or.inl rfl), List.dropLast_concat, h]
    · rw [parse_iops_eq, strip 'M' (Or.inr (Or.inr (Or.inr rfl))), List.getLast?_concat,
        if_neg (by simp), if_pos (Or.inr rfl), List.dropLast_concat, h]
    · rw [parse_iops_digdot hall, h]
      exact mul_one q
  · intro s hall hnone
    rw [parse_iops_digdot hall, hnone]

theorem C8_witness : parse_iops_value ("125".toList ++ ['k']) = 125 * 1000 :=
  (C8_iops.1 ("125".toList) 125 (by with_unfolding_all rfl)).1

/-- C9: bandwidth unit conversion to Bytes/s: binary units scale by powers
of 1024, decimal units by powers of 1000, bare B/s is identity, an
unrecognized unit passes the value through, and for positive values the
binary conversion strictly exceeds the decimal one of equal prefix. -/
theorem C9_bandwidth (v : ℚ) (hv : 0 ≤ v) :
    parse_bw_to_bps v ("KiB/s".toList) = v * 1024 ∧
    parse_bw_to_bps v ("MiB/s".toList) = v * 1024 * 1024 ∧
    parse_bw_to_bps v ("GiB/s".toList) = v * 1024 * 1024 * 1024 ∧
    parse_bw_to_bps v ("KB/s".toList) = v * 1000 ∧
    parse_bw_to_bps v ("MB/s".toList) = v * 1000 * 1000 ∧
    parse_bw_to_bps v ("GB/s".toList) = v * 1000 * 1000 * 1000 ∧
    parse_bw_to_bps v ("B/s".toList) = v ∧
    (∀ unit : List Char,
      containsSub ("gib/s".toList) (lowerL unit) = false →
      containsSub ("gb/s".toList) (lowerL unit) = false →
      containsSub ("mib/s".toList) (lowerL unit) = false →
      containsSub ("mb/s".toList) (lowerL unit) = false →
      containsSub ("kib/s".toList) (lowerL unit) = false →
      containsSub ("kb/s".toList) (lowerL unit) = false →
      containsSub ("b/s".toList) (lowerL unit) = false →
      parse_bw_to_bps v unit = v) ∧
    (0 < v →
      parse_bw_to_bps v ("KB/s".toList) < parse_bw_to_bps v ("KiB/s".toList) ∧
      parse_bw_to_bps v ("MB/s".toList) < parse_bw_to_bps v ("MiB/s".toList) ∧
      parse_bw_to_bps v ("GB/s".toList) < parse_bw_to_bps v ("GiB/s".toList)) := by
  refine ⟨rfl, rfl, rfl, rfl, rfl, rfl, rfl, ?_, ?_⟩
  · intro unit h1 h2 h3 h4 h5 h6 h7
    unfold parse_bw_to_bps
    dsimp only
    rw [if_neg (ne_true_of_eq_false h1), if_neg (ne_true_of_eq_false h2),
      if_neg (ne_true_of_eq_false h3), if_neg (ne_true_of_eq_false h4),
      if_neg (ne_true_of_eq_false h5), if_neg (ne_true_of_eq_false h6),
      if_neg (ne_true_of_eq_false h7)]
  · intro hp
    refine ⟨?_, ?_, ?_⟩
    · show v * 1000 < v * 1024
      nlinarith
    · show v * 1000 * 1000 < v * 1024 * 1024
      nlinarith
    · show v * 1000 * 1000 * 1000 < v * 1024 * 1024 * 1024
      nlinarith

theorem C9_witness :
    parse_bw_to_bps 501 ("MiB/s".toList) = 501 * 1024 * 1024 ∧
    parse_bw_to_bps 525 ("MB/s".toList) < parse_bw_to_bps 525 ("MiB/s".toList) :=
  ⟨(C9_bandwidth 501 (by norm_num)).2.1,
   ((C9_bandwidth 525 (by norm_num)).2.2.2.2.2.2.2.2 (by norm_num)).2.1⟩


/-- C4: for `randrw` metadata the aggregator produces exactly one row with
direction `mixed`, whose IOPS and bandwidth fields are the sums of the read
and write values, and whose latency is the average of the two direction
means when both are nonzero, else whichever is nonzero. -/
theorem C4_randrw_mixed (meta : Metadata) (ts : List Char) (rm : RawMetrics)
    (h : lowerL meta.test_type = "randrw".toList) :
    (buildRows meta ts rm).length = 1 ∧
    (∀ row ∈ buildRows meta ts rm,
      row.direction = "mixed".toList ∧
      row.iops_k = rm.read_iops.sum / 1000 + rm.write_iops.sum / 1000 ∧
      row.bw_mps = rm.read_bw.sum / 1000000 + rm.write_bw.sum / 1000000 ∧
      (get_avg rm.read_lat ≠ 0 → get_avg rm.write_lat ≠ 0 →
        row.lat_avg_us = (get_avg rm.read_lat + get_avg rm.write_lat) / 2) ∧
      (get_avg rm.read_lat ≠ 0 → get_avg rm.write_lat = 0 →
        row.lat_avg_us = get_avg rm.read_lat) ∧
      (get_avg rm.read_lat = 0 → row.lat_avg_us = get_avg rm.write_lat)) ∧
    ∀ fp c ts2 : List Char, ∀ rows : List ResultRow,
      parseContent fp c ts2 = .ok rows →
      lowerL (parseMetadata fp c).test_type = "randrw".toList →
      rows.length = 1 ∧ ∀ row ∈ rows, row.direction = "mixed".toList := by
  refine ⟨?_, ?_, ?_⟩
  · rw [buildRows_randrw_eq meta ts rm h]
    rfl
  · rw [buildRows_randrw_eq meta ts rm h]
    intro row hrow
    rw [List.mem_singleton] at hrow
    subst hrow
    refine ⟨rfl, by dsimp only; ring, by dsimp only; ring, ?_, ?_, ?_⟩
    · intro hr hw
      dsimp only
      rw [if_pos ⟨hr, hw⟩]
    · intro hr hw
      dsimp only
      rw [if_neg (fun hc => hc.2 hw), if_pos hr]
    · intro hr
      dsimp only
      rw [if_neg (fun hc => hc.1 hr), if_neg (fun hc => hc hr)]
  · intro fp c ts2 rows hok htt
    have hrows := parseContent_ok hok
    subst hrows
    rw [buildRows_randrw_eq _ _ _ htt]
    exact ⟨rfl, fun row hrow => by rw [List.mem_singleton.mp hrow]⟩

theorem C4_witness :
    (buildRows metaRW ("t".toList) rawRW).length = 1 ∧
    ∀ row ∈ buildRows metaRW ("t".toList) rawRW,
      row.iops_k = 3 ∧ row.lat_avg_us = 200 := by
  have H := C4_randrw_mixed metaRW ("t".toList) rawRW (by with_unfolding_all rfl)
  refine ⟨H.1, ?_⟩
  intro row hrow
  have h2 := H.2.1 row hrow
  have hr : get_avg rawRW.read_lat = 100 := by with_unfolding_all rfl
  have hw : get_avg rawRW.write_lat = 300 := by with_unfolding_all rfl
  constructor
  · rw [h2.2.1]
    with_unfolding_all rfl
  · rw [h2.2.2.2.1 (by rw [hr]; norm_num) (by rw [hw]; norm_num), hr, hw]
    norm_num

/-- C10: a successfully parsed file yields at most two rows; `randrw`
metadata yields exactly one row even with no metric matches; any other
test type with no nonzero metric entry in either direction yields no
rows. -/
theorem C10_row_count (filepath content ts : List Char) (rows : List ResultRow)
    (h : parseContent filepath content ts = .ok rows) :
    rows.length ≤ 2 ∧
    (lowerL (parseMetadata filepath content).test_type = "randrw".toList →
      rows.length = 1) ∧
    (lowerL (parseMetadata filepath content).test_type ≠ "randrw".toList →
      (∀ x ∈ (collectContent content).read_iops, x = 0) →
      (∀ x ∈ (collectContent content).read_bw, x = 0) →
      (∀ x ∈ (collectContent content).read_lat, x = 0) →
      (∀ x ∈ (collectContent content).write_iops, x = 0) →
      (∀ x ∈ (collectContent content).write_bw, x = 0) →
      (∀ x ∈ (collectContent content).write_lat, x = 0) →
      rows = []) := by
  have hrows := parseContent_ok h
  subst hrows
  refine ⟨buildRows_length_le _ _ _, ?_, ?_⟩
  · intro htt
    rw [buildRows_randrw_eq _ _ _ htt]
    rfl
  · intro htt hz1 hz2 hz3 hz4 hz5 hz6
    rw [buildRows_other_eq _ _ _ htt]
    rw [if_neg (by
      simp [List.sum_eq_zero hz1, List.sum_eq_zero hz2, get_avg_zero hz3])]
    rw [if_neg (by
      simp [List.sum_eq_zero hz4, List.sum_eq_zero hz5, get_avg_zero hz6])]
    rfl

theorem C10_witness : ([rowRWEmpty] : List ResultRow).length = 1 :=
  (C10_row_count ("sda_randrw_4k_nj1_io1_1.log".toList) [] ("t".toList) [rowRWEmpty]
    (by with_unfolding_all rfl)).2.1 (by with_unfolding_all rfl)


lemma digit_digdot {c : Char} (h : isDigitC c = true) : isDigDot c = true := by
  simp [isDigDot, h]

lemma lowerL_of_fixed {l : List Char} (h : ∀ c ∈ l, lowerC c = c) : lowerL l = l := by
  unfold lowerL
  induction l with
  | nil => rfl
  | cons a t ih =>
    simp only [List.map_cons]
    rw [h a (by simp), ih fun c hc => h c (by simp [hc])]

set_option maxRecDepth 4000 in
lemma bsb_suffix {ds : List Char} (hne : ds ≠ []) (hd : ds.all isDigitC = true)
    {ch : Char} (hch : ch = 'k' ∨ ch = 'm' ∨ ch = 'g') :
    block_size_to_bytes (ds ++ [ch]) =
      (if ch = 'k' then natOfDigits ds * 1024
       else if ch = 'm' then natOfDigits ds * 1024 * 1024
       else natOfDigits ds * 1024 * 1024 * 1024) := by
  have hds := List.all_eq_true.mp hd
  have hstrip : pyStrip (ds ++ [ch]) = ds ++ [ch] := by
    apply pyStrip_eq_self
    intro c hc
    rcases List.mem_append.mp hc with hc | hc
    · exact not_space_of_digdot (digit_digdot (hds c hc))
    · rw [List.mem_singleton.mp hc]
      rcases hch with rfl | rfl | rfl <;> decide
  have hlow : lowerL (ds ++ [ch]) = ds ++ [ch] := by
    apply lowerL_of_fixed
    intro c hc
    rcases List.mem_append.mp hc with hc | hc
    · exact lowerC_of_digit (hds c hc)
    · rw [List.mem_singleton.mp hc]
      rcases hch with rfl | rfl | rfl <;> decide
  unfold block_size_to_bytes
  dsimp only
  rw [hstrip, hlow, takeWhile_append_all hds, dropWhile_append_all hds]
  rcases hch with rfl | rfl | rfl
  · rw [show List.takeWhile isDigitC ['k'] = [] from rfl, List.append_nil,
      if_neg (by simp [List.isEmpty_iff, hne])]
    rfl
  · rw [show List.takeWhile isDigitC ['m'] = [] from rfl, List.append_nil,
      if_neg (by simp [List.isEmpty_iff, hne])]
    rfl
  · rw [show List.takeWhile isDigitC ['g'] = [] from rfl, List.append_nil,
      if_neg (by simp [List.isEmpty_iff, hne])]
    rfl

lemma bsb_bare {ds : List Char} (hne : ds ≠ []) (hd : ds.all isDigitC = true) :
    block_size_to_bytes ds = natOfDigits ds := by
  have hds := List.all_eq_true.mp hd
  have hstrip : pyStrip ds = ds :=
    pyStrip_eq_self fun c hc => not_space_of_digdot (digit_digdot (hds c hc))
  have hlow : lowerL ds = ds := lowerL_of_digits hds
  have htake : ds.takeWhile isDigitC = ds := by
    have := takeWhile_append_all (r := []) hds
    simpa using this
  have hdrop : ds.dropWhile isDigitC = [] := by
    have := dropWhile_append_all (r := []) hds
    simpa using this
  unfold block_size_to_bytes
  dsimp only
  rw [hstrip, hlow, htake, hdrop, if_neg (by simp [List.isEmpty_iff, hne])]
  rfl

/-- C7: sorting orders rows by lexicographic comparison on (test-type rank,
block size in bytes, numjobs, iodepth); it permutes the input, is stable
(equal keys keep input order) and idempotent; the rank order is seqread <
seqwrite < randread < randwrite < randrw with unknown types last, and block
sizes convert with k/m/g binary multipliers, bare digits as bytes, and
unparseable text as 0. -/
theorem C7_sort (l : List ResultRow) :
    List.Perm (sort_results l) l ∧
    List.Pairwise (fun a b => rowLE a b = true) (sort_results l) ∧
    sort_results (sort_results l) = sort_results l ∧
    (∀ a b : ResultRow, sortKey a = sortKey b → List.Sublist [a, b] l →
      List.Sublist [a, b] (sort_results l)) ∧
    (TEST_TYPE_ORDER ("seqread".toList) = 0 ∧ TEST_TYPE_ORDER ("seqwrite".toList) = 1 ∧
      TEST_TYPE_ORDER ("randread".toList) = 2 ∧ TEST_TYPE_ORDER ("randwrite".toList) = 3 ∧
      TEST_TYPE_ORDER ("randrw".toList) = 4) ∧
    (∀ t : List Char, t ∉ testTypes → ∀ s ∈ testTypes,
      TEST_TYPE_ORDER s < TEST_TYPE_ORDER t) ∧
    (∀ ds : List Char, ds ≠ [] → ds.all isDigitC = true →
      block_size_to_bytes (ds ++ ['k']) = natOfDigits ds * 1024 ∧
      block_size_to_bytes (ds ++ ['m']) = natOfDigits ds * 1024 * 1024 ∧
      block_size_to_bytes (ds ++ ['g']) = natOfDigits ds * 1024 * 1024 * 1024 ∧
      block_size_to_bytes ds = natOfDigits ds) ∧
    (∀ bs : List Char, (lowerL (pyStrip bs)).takeWhile isDigitC = [] →
      block_size_to_bytes bs = 0) := by
  refine ⟨List.mergeSort_perm l rowLE,
    List.sorted_mergeSort rowLE_trans rowLE_total l,
    List.mergeSort_of_sorted (List.sorted_mergeSort rowLE_trans rowLE_total l),
    ?_, ⟨by decide, by decide, by decide, by decide, by decide⟩, ?_, ?_, ?_⟩
  · intro a b hk hsub
    refine List.pair_sublist_mergeSort rowLE_trans rowLE_total ?_ hsub
    show rowLE a b = true
    unfold rowLE
    rw [hk]
    exact keyLE_refl _
  · intro t ht s hs
    simp only [testTypes, List.mem_cons, List.not_mem_nil, or_false, not_or] at ht
    obtain ⟨h1, h2, h3, h4, h5⟩ := ht
    have h99 : TEST_TYPE_ORDER t = 99 := by
      unfold TEST_TYPE_ORDER
      rw [if_neg h1, if_neg h2, if_neg h3, if_neg h4, if_neg h5]
    rw [h99]
    simp only [testTypes, List.mem_cons, List.not_mem_nil, or_false] at hs
    rcases hs with rfl | rfl | rfl | rfl | rfl <;> decide
  · intro ds hne hd
    refine ⟨?_, ?_, ?_, bsb_bare hne hd⟩
    · have := bsb_suffix hne hd (Or.inl rfl)
      simpa using this
    · have := bsb_suffix hne hd (Or.inr (Or.inl rfl))
      simpa using this
    · have := bsb_suffix hne hd (Or.inr (Or.inr rfl))
      simpa using this
  · intro bs h
    unfold block_size_to_bytes
    dsimp only
    rw [h]
    rfl

theorem C7_witness :
    List.Sublist [sampleRow, sampleRowB] (sort_results [sampleRow, sampleRowB]) :=
  (C7_sort [sampleRow, sampleRowB]).2.2.2.1 sampleRow sampleRowB (by decide)
    (List.Sublist.refl _)

lemma parse_directory_cons (fs : List Char → FileEntry) (p : List Char)
    (rest : List (List Char)) (ts : List Char) :
    parse_directory fs (p :: rest) ts =
      if isPrecond p then parse_directory fs rest ts
      else
        match parse_fio_log fs p ts with
        | .error e => .error e
        | .ok rs =>
          match parse_directory fs rest ts with
          | .error e => .error e
          | .ok more => .ok (rs ++ more) := rfl

/-- C3 (amended): a path that is not a regular file is skipped and the batch
continues; decode errors are replaced rather than raised; but an open
failure on an existing file propagates out of the loop and aborts the
batch. -/
theorem C3_batch (fs : List Char → FileEntry) (p : List Char)
    (rest : List (List Char)) (ts : List Char) :
    (fs p = .absent → isPrecond p = false →
      parse_directory fs (p :: rest) ts = parse_directory fs rest ts) ∧
    (fs p = .denied → isPrecond p = false →
      parse_directory fs (p :: rest) ts = .error .oserror) ∧
    decodeReplace (("hi".toList).map Char.toNat ++ [255]) =
      "hi".toList ++ [Char.ofNat 0xFFFD] := by
  refine ⟨?_, ?_, by with_unfolding_all rfl⟩
  · intro ha hp
    rw [parse_directory_cons, if_neg (by simp [hp])]
    have hok : parse_fio_log fs p ts = .ok [] := by
      unfold parse_fio_log
      rw [ha]
    rw [hok]
    cases hrec : parse_directory fs rest ts with
    | error e => rfl
    | ok more => simp
  · intro hd hp
    rw [parse_directory_cons, if_neg (by simp [hp])]
    have herr : parse_fio_log fs p ts = .error .oserror := by
      unfold parse_fio_log
      rw [hd]
    rw [herr]

theorem C3_counterexample :
    parse_directory fsDemo ["a.log".toList, "b.log".toList] ("t".toList) =
      .error .oserror ∧
    parse_fio_log fsDemo ("b.log".toList) ("t".toList) = .ok [rowB] :=
  ⟨by with_unfolding_all rfl, by with_unfolding_all rfl⟩

theorem C3_witness :
    parse_directory fsDemo ["c.log".toList, "b.log".toList] ("t".toList) =
      parse_directory fsDemo ["b.log".toList] ("t".toList) ∧
    parse_directory fsDemo ["a.log".toList, "b.log".toList] ("t".toList) =
      .error .oserror :=
  ⟨(C3_batch fsDemo ("c.log".toList) ["b.log".toList] ("t".toList)).1
      (by with_unfolding_all rfl) (by with_unfolding_all rfl),
   (C3_batch fsDemo ("a.log".toList) ["b.log".toList] ("t".toList)).2.1
      (by with_unfolding_all rfl) (by with_unfolding_all rfl)⟩


/-- C6: the metric extractor aggregates across job sections: each direction's
collected value lists are exactly the concatenation, section by section and
chunk by chunk, of that direction's per-chunk extractions — nothing is
overwritten, a chunk only ever contributes to the direction of its own
match, and the per-direction totals are the sums across all sections. -/
theorem C6_aggregation (content : List Char) :
    (collectContent content).read_iops =
      ((jobSplit content).map (dirIopsList ("read".toList))).flatten ∧
    (collectContent content).read_bw =
      ((jobSplit content).map (dirBwList ("read".toList))).flatten ∧
    (collectContent content).read_lat =
      ((jobSplit content).map (dirLatList ("read".toList))).flatten ∧
    (collectContent content).write_iops =
      ((jobSplit content).map (dirIopsList ("write".toList))).flatten ∧
    (collectContent content).write_bw =
      ((jobSplit content).map (dirBwList ("write".toList))).flatten ∧
    (collectContent content).write_lat =
      ((jobSplit content).map (dirLatList ("write".toList))).flatten ∧
    (collectContent content).read_iops.sum =
      ((jobSplit content).map (fun s => (dirIopsList ("read".toList) s).sum)).sum ∧
    (collectContent content).write_iops.sum =
      ((jobSplit content).map (fun s => (dirIopsList ("write".toList) s).sum)).sum ∧
    (collectContent content).read_bw.sum =
      ((jobSplit content).map (fun s => (dirBwList ("read".toList) s).sum)).sum ∧
    (collectContent content).write_bw.sum =
      ((jobSplit content).map (fun s => (dirBwList ("write".toList) s).sum)).sum ∧
    get_avg (collectContent content).read_lat =
      get_avg ((jobSplit content).map (dirLatList ("read".toList))).flatten ∧
    get_avg (collectContent content).write_lat =
      get_avg ((jobSplit content).map (dirLatList ("write".toList))).flatten := by
  have H := collectSections_eq (jobSplit content) emptyRaw
  have hw1 : ∀ s ∈ jobSplit content,
      ((directionChunks s).filterMap fun dc =>
        if dc.1 = "read".toList then none else (chunkIops dc.2).map Prod.fst) =
      dirIopsList ("write".toList) s :=
    fun s _ => write_filterMap_eq s (fun c => (chunkIops c).map Prod.fst)
  have hw2 : ∀ s ∈ jobSplit content,
      ((directionChunks s).filterMap fun dc =>
        if dc.1 = "read".toList then none else (chunkIops dc.2).map Prod.snd) =
      dirBwList ("write".toList) s :=
    fun s _ => write_filterMap_eq s (fun c => (chunkIops c).map Prod.snd)
  have hw3 : ∀ s ∈ jobSplit content,
      ((directionChunks s).filterMap fun dc =>
        if dc.1 = "read".toList then none else chunkLat dc.2) =
      dirLatList ("write".toList) s := fun s _ => write_filterMap_eq s chunkLat
  have hri : (collectContent content).read_iops =
      ((jobSplit content).map (dirIopsList ("read".toList))).flatten := by
    unfold collectContent
    rw [H]
    simp [emptyRaw]
  have hwi : (collectContent content).write_iops =
      ((jobSplit content).map (dirIopsList ("write".toList))).flatten := by
    unfold collectContent
    rw [H]
    dsimp only [emptyRaw]
    rw [List.nil_append, List.map_congr_left hw1]
  have hrb : (collectContent content).read_bw =
      ((jobSplit content).map (dirBwList ("read".toList))).flatten := by
    unfold collectContent
    rw [H]
    simp [emptyRaw]
  have hwb : (collectContent content).write_bw =
      ((jobSplit content).map (dirBwList ("write".toList))).flatten := by
    unfold collectContent
    rw [H]
    dsimp only [emptyRaw]
    rw [List.nil_append, List.map_congr_left hw2]
  have hrl : (collectContent content).read_lat =
      ((jobSplit content).map (dirLatList ("read".toList))).flatten := by
    unfold collectContent
    rw [H]
    simp [emptyRaw]
  have hwl : (collectContent content).write_lat =
      ((jobSplit content).map (dirLatList ("write".toList))).flatten := by
    unfold collectContent
    rw [H]
    dsimp only [emptyRaw]
    rw [List.nil_append, List.map_congr_left hw3]
  refine ⟨hri, hrb, hrl, hwi, hwb, hwl, ?_, ?_, ?_, ?_, congrArg get_avg hrl,
    congrArg get_avg hwl⟩
  · rw [hri]
    simp only [List.sum_flatten, List.map_map]
    rfl
  · rw [hwi]
    simp only [List.sum_flatten, List.map_map]
    rfl
  · rw [hrb]
    simp only [List.sum_flatten, List.map_map]
    rfl
  · rw [hwb]
    simp only [List.sum_flatten, List.map_map]
    rfl

end Fio
